import Mathlib

/-!
Shallow embedding of `instances_generator.py` (MRSAinstances): the sizing
estimator `calculateMaxNumberOfDemands`, the parameter validation and
filtering performed by the main block, and the demand-allocation loop.
Python floats are modelled by rationals, Python `int()` by truncation
toward zero, and the `random` module by a deterministic stream of naturals
whose draws respect the documented ranges of `random.sample`,
`random.uniform` and `random.randint`.
-/

namespace MRSA

/-- Python `int()` applied to a float: truncation toward zero. -/
def pyInt (x : ℚ) : ℤ :=
  if 0 ≤ x then ⌊x⌋ else ⌈x⌉

/-- `calculateGraphDensity(n, m)`: `2.*m/(n*(n-1))` (source line 56). -/
def calculateGraphDensity (n m : ℕ) : ℚ :=
  2 * (m : ℚ) / ((n : ℚ) * ((n : ℚ) - 1))

/-- `calculateMaxNumberOfDemands(n, m, S, max_sd)`:
`int((n-1.) * d * S/(max_sd))` where `d` is the graph density
(source lines 72-74). -/
def calculateMaxNumberOfDemands (n m S max_sd : ℕ) : ℤ :=
  pyInt (((n : ℚ) - 1) * calculateGraphDensity n m * (S : ℚ) / (max_sd : ℚ))

/-- Source line 185: `nT = int(max(1, nT * args.density))`. -/
def finalBudget (nT : ℤ) (density : ℚ) : ℤ :=
  pyInt (max 1 ((nT : ℚ) * density))

/-- The command-line arguments relevant to parameter validation: the flags
`-d` (density), `-S` (slots), `-p` (percents) and `-sp` (spread);
`none` means the flag was not passed and the default list is used,
and the spread flag defaults to `[1.0]`. -/
structure Args where
  density : ℚ
  slots : Option (List ℤ)
  percents : Option (List ℚ)
  spread : List ℚ

/-- Default slot counts (source lines 138-139). -/
def default_slots : List ℤ :=
  [10, 15, 20, 30, 40, 60, 80, 100, 150, 200, 300, 400, 600, 800, 1000]

/-- Default demand-percentage sweep, `np.arange(.1, .9, .1)`
(source line 144). -/
def default_percentages : List ℚ :=
  [1/10, 2/10, 3/10, 4/10, 5/10, 6/10, 7/10, 8/10]

/-- `avaliable_S` (source lines 138-140): defaults, or the given slot
counts with non-positive values discarded (`set` modelled by `dedup`). -/
def avaliableS (a : Args) : List ℤ :=
  match a.slots with
  | none => default_slots
  | some l => l.dedup.filter (fun s => 0 < s)

/-- `max_percentages_of_slots_by_demand` (source lines 144-147): defaults,
or the given percentages with values outside `(0, 1]` discarded. -/
def maxPercentages (a : Args) : List ℚ :=
  match a.percents with
  | none => default_percentages
  | some l => l.dedup.filter (fun p => 0 < p ∧ p ≤ 1)

/-- `spreads` (source line 149): the given spread values with values
outside `(0, 1]` discarded. -/
def spreadsOf (a : Args) : List ℚ :=
  a.spread.dedup.filter (fun sp => 0 < sp ∧ sp ≤ 1)

/-- The error message printed for an out-of-range density factor
(source line 135). -/
def densityErr : String :=
  "Demands density must be in (0, 10)"

/-- Parameter processing of the main block (source lines 134-149): the run
aborts with an error (nonzero exit) only when the density factor is outside
`(0, 10)`; every other out-of-range parameter is silently filtered out and
generation proceeds with the remaining values. -/
def checkAndFilter (a : Args) : Except String (List ℤ × List ℚ × List ℚ) :=
  if 0 < a.density ∧ a.density < 10 then
    Except.ok (avaliableS a, maxPercentages a, spreadsOf a)
  else
    Except.error densityErr

/-- The Python `random` module after `random.seed(...)`: a deterministic
stream of naturals together with the current position. Each primitive draw
consumes stream values in order; all draws stay inside the ranges the
`random` documentation guarantees, which is all the program relies on. -/
structure Rng where
  stream : ℕ → ℕ
  pos : ℕ

/-- Consume one raw stream value. -/
def Rng.next (r : Rng) : ℕ × Rng :=
  (r.stream r.pos, ⟨r.stream, r.pos + 1⟩)

/-- `random.sample(range(n), 1)` (source line 205): one node in `[0, n)`. -/
def Rng.sampleOneNode (r : Rng) (n : ℕ) : ℕ × Rng :=
  let p := r.next
  (p.1 % n, p.2)

/-- `random.uniform(a, b)` (source line 209): a value in `[a, b]`
(for `a ≤ b`), modelled as `a + (b - a) * q` with `q ∈ [0, 1]` derived
from the stream. -/
def Rng.uniform (r : Rng) (a b : ℚ) : ℚ × Rng :=
  let p := r.next
  (a + (b - a) * (((p.1 % 1001 : ℕ) : ℚ) / 1000), p.2)

/-- `random.randint(a, b)` (source line 218): an integer in `[a, b]`
(for `a ≤ b`). -/
def Rng.randint (r : Rng) (a b : ℕ) : ℕ × Rng :=
  let p := r.next
  (a + p.1 % (b - a + 1), p.2)

/-- `random.sample(pop, k)` (source lines 214-216): `k` elements drawn
without replacement — each draw removes the chosen position from the
population, so the chosen positions are pairwise distinct. -/
def Rng.sampleList : Rng → List ℕ → ℕ → List ℕ × Rng
  | r, _, 0 => ([], r)
  | r, pop, k + 1 =>
    let p := r.next
    let i := p.1 % pop.length
    let q := Rng.sampleList p.2 (pop.eraseIdx i) k
    (pop.getD i 0 :: q.1, q.2)

/-- One demand record: a source node, its destination list, and the slot
requirement (one output line, source lines 221-225). -/
structure Demand where
  src : ℕ
  dsts : List ℕ
  slots : ℕ

/-- `spInv = math.pow(sp, -1)` (source line 199). -/
def spInvOf (sp : ℚ) : ℚ :=
  sp⁻¹

/-- The destination-count computation of one loop iteration (source lines
207-212): `nDst = 1`, overwritten by `ceil(uniform(0.5*spInv, 2*spInv))`
when `spInv - 1 > 0.001`, then clamped to the remaining budget and to
`n - 1`. -/
def drawNDst (n : ℕ) (spInv : ℚ) (remaining : ℕ) (r : Rng) : ℕ × Rng :=
  let c :=
    if spInv - 1 > 1/1000 then
      let u := r.uniform ((1/2) * spInv) (2 * spInv)
      ((⌈u.1⌉).toNat, u.2)
    else
      (1, r)
  (min (n - 1) (min remaining c.1), c.2)

/-- The slot draw of one loop iteration (source lines 218-219):
`s = max(1, randint(floor(max_sd/2), max_sd))`. -/
def drawSlots (max_sd : ℕ) (r : Rng) : ℕ × Rng :=
  let s := r.randint (max_sd / 2) max_sd
  (max 1 s.1, s.2)

/-- The body of one iteration of the allocation loop (source lines
204-225): draw the source, draw and clamp the destination count, subtract
it from the budget, sample that many distinct destinations from all nodes
other than the source, draw the slot requirement. Returns the emitted
record, the new remaining budget, and the advanced random stream. -/
def allocStep (n max_sd : ℕ) (spInv : ℚ) (remaining : ℕ) (r : Rng) :
    Demand × ℕ × Rng :=
  let s1 := r.sampleOneNode n
  let d1 := drawNDst n spInv remaining s1.2
  let pop := (List.range n).filter (fun d => d ≠ s1.1)
  let d2 := Rng.sampleList d1.2 pop d1.1
  let d3 := drawSlots max_sd d2.2
  (⟨s1.1, d2.1, d3.1⟩, remaining - d1.1, d3.2)

/-- The allocation loop `while remainingT > 0` (source lines 203-225),
with an explicit fuel bound (the Python loop terminates because the budget
strictly decreases; `allocate` supplies fuel `nT`, which suffices).
Returns the emitted records in order, the final remaining budget, and the
advanced random stream. -/
def allocLoop (n max_sd : ℕ) (spInv : ℚ) : ℕ → ℕ → Rng → List Demand × ℕ × Rng
  | _, 0, r => ([], 0, r)
  | 0, remaining, r => ([], remaining, r)
  | fuel + 1, rem + 1, r =>
    let st := allocStep n max_sd spInv (rem + 1) r
    let rest := allocLoop n max_sd spInv fuel st.2.1 st.2.2
    (st.1 :: rest.1, rest.2)

/-- The allocator for one instance file (source lines 198-225): budget
`nT`, spread `sp`; the record count `nD` of the source equals the length
of the returned record list (both are incremented exactly once per
iteration). -/
def allocate (n max_sd : ℕ) (sp : ℚ) (nT : ℕ) (r : Rng) :
    List Demand × ℕ × Rng :=
  allocLoop n max_sd (spInvOf sp) nT nT r

/-- `sep = '\t'` (source line 35). -/
def sep : String :=
  "\t"

/-- One record's output line (source lines 221-225):
`src <tab> nDst <tab> dst_1 ... dst_nDst <tab> slots`; the printed `nDst`
equals the length of the destination list `random.sample` returned. -/
def demandLine (d : Demand) : String :=
  toString d.src ++ sep ++ toString d.dsts.length ++ sep ++
    String.intercalate sep (d.dsts.map toString) ++ sep ++ toString d.slots

/-- The header comment lines (source lines 191-196). -/
def headerLines (seed : ℕ) : List String :=
  ["# Created by Marcelo Bianchetti",
   "# Version: 1.0.0",
   "# Seed: " ++ toString seed,
   "# Format:",
   "#   First line: S  |D|",
   "#   Other lines: <src #dst dst_1 dst_2 ... dst_#dst #slots>"]

/-- The full content of one instance file, as a list of lines
(source lines 190-231): header, then `S <tab> nD`, then one line per
record. -/
def instanceLines (seed S : ℕ) (recs : List Demand) : List String :=
  headerLines seed ++
    ((toString S ++ sep ++ toString recs.length) :: recs.map demandLine)

/-- Modelled from the spec: `random.seed(args.seed)` (source line 132)
seeds the single process-wide pseudorandom stream. The Mersenne Twister
itself is not repository code; it is modelled as a fixed deterministic
function of the seed, which is the only property the reproducibility
contract uses. -/
def rngOfSeed (seed : ℕ) : Rng :=
  ⟨fun i => (seed + i + 1) * 2654435761 % 4294967296, 0⟩

/-- The generation of one instance file for one
`(percentage, topology, S, spread)` combination (source lines 179-231):
`max_sd = ceil(percentage * S)`, the sizing estimator, the density-factor
budget, the allocation loop, and the serialized lines. Returns the lines
and the advanced random stream. -/
def genOne (seed n m S : ℕ) (percentage sp density : ℚ) (r : Rng) :
    List String × Rng :=
  let max_sd := (⌈percentage * (S : ℚ)⌉).toNat
  let nT := (finalBudget (calculateMaxNumberOfDemands n m S max_sd) density).toNat
  let a := allocate n max_sd sp nT r
  (instanceLines seed S a.1, a.2.2)

/-- The whole generation core of one program run (source lines 132-231):
seed the stream once, then for each percentage, each topology and each
`(S, spread)` pair generate one file, threading the one shared random
stream through every combination in iteration order. Returns the list of
file contents in creation order. -/
def runSweep (seed : ℕ) (tops : List (ℕ × ℕ)) (a : Args) :
    List (List String) :=
  let combos :=
    (maxPercentages a).flatMap (fun p =>
      tops.flatMap (fun t =>
        (avaliableS a).flatMap (fun S =>
          (spreadsOf a).map (fun sp => (p, t, S, sp)))))
  (combos.foldl
    (fun acc c =>
      let g := genOne seed c.2.1.1 c.2.1.2 c.2.2.1.toNat c.1 c.2.2.2
        a.density acc.2
      (acc.1 ++ [g.1], g.2))
    (([] : List (List String)), rngOfSeed seed)).1

/-! ### Helper lemmas -/

lemma pyInt_of_nonneg {x : ℚ} (h : 0 ≤ x) : pyInt x = ⌊x⌋ :=
  if_pos h

lemma pyInt_max_one {x : ℚ} (hx : 0 ≤ x) : pyInt (max 1 x) = max 1 ⌊x⌋ := by
  rw [pyInt_of_nonneg (le_trans zero_le_one (le_max_left 1 x))]
  rcases le_total x 1 with h | h
  · have h1 : ⌊x⌋ ≤ 1 := by
      have h2 : ⌊x⌋ ≤ ⌊(1 : ℚ)⌋ := Int.floor_le_floor h
      simpa using h2
    rw [max_eq_left h, max_eq_left h1]
    simp
  · have h1 : 1 ≤ ⌊x⌋ := by
      have h2 : ⌊(1 : ℚ)⌋ ≤ ⌊x⌋ := Int.floor_le_floor h
      simpa using h2
    rw [max_eq_right h, max_eq_right h1]

lemma estimator_arg_nonneg (n m S max_sd : ℕ) (hn : 2 ≤ n) :
    0 ≤ ((n : ℚ) - 1) * calculateGraphDensity n m * (S : ℚ) / (max_sd : ℚ) := by
  have h1 : (1 : ℚ) ≤ (n : ℚ) := by
    have : (1 : ℕ) ≤ n := le_trans (by norm_num) hn
    exact_mod_cast this
  have hd : 0 ≤ calculateGraphDensity n m := by
    unfold calculateGraphDensity
    apply div_nonneg
    · positivity
    · have h0 : (0 : ℚ) ≤ (n : ℚ) := Nat.cast_nonneg n
      nlinarith
  apply div_nonneg
  · apply mul_nonneg
    · apply mul_nonneg (by linarith) hd
    · exact Nat.cast_nonneg S
  · exact Nat.cast_nonneg max_sd

lemma calculateMaxNumberOfDemands_nonneg (n m S max_sd : ℕ) (hn : 2 ≤ n) :
    0 ≤ calculateMaxNumberOfDemands n m S max_sd := by
  unfold calculateMaxNumberOfDemands
  rw [pyInt_of_nonneg (estimator_arg_nonneg n m S max_sd hn)]
  exact Int.floor_nonneg.mpr (estimator_arg_nonneg n m S max_sd hn)

/-! ### Claim theorems: sizing estimator and final budget -/

/-- C2: for every `n ≥ 2`, `m ≥ 0`, positive `S` and positive `max_sd`,
`calculateMaxNumberOfDemands` returns
`floor((n-1) * density * S / max_sd)` with `density = 2m / (n(n-1))`,
and this value is nonnegative. -/
theorem estimator_formula (n m S max_sd : ℕ)
    (hn : 2 ≤ n) (hS : 0 < S) (hsd : 0 < max_sd) :
    calculateMaxNumberOfDemands n m S max_sd
      = ⌊((n : ℚ) - 1) * (2 * (m : ℚ) / ((n : ℚ) * ((n : ℚ) - 1)))
          * (S : ℚ) / (max_sd : ℚ)⌋ ∧
    0 ≤ calculateMaxNumberOfDemands n m S max_sd := by
  constructor
  · unfold calculateMaxNumberOfDemands
    rw [pyInt_of_nonneg (estimator_arg_nonneg n m S max_sd hn)]
    unfold calculateGraphDensity
    rfl
  · exact calculateMaxNumberOfDemands_nonneg n m S max_sd hn

/-- Witness for C2 at `n = 4, m = 3, S = 10, max_sd = 5`. -/
theorem estimator_formula_witness :
    2 ≤ 4 ∧ 0 < 10 ∧ 0 < 5 ∧
    (calculateMaxNumberOfDemands 4 3 10 5
      = ⌊((4 : ℚ) - 1) * (2 * (3 : ℚ) / ((4 : ℚ) * ((4 : ℚ) - 1)))
          * (10 : ℚ) / (5 : ℚ)⌋ ∧
     0 ≤ calculateMaxNumberOfDemands 4 3 10 5) :=
  ⟨by norm_num, by norm_num, by norm_num,
   estimator_formula 4 3 10 5 (by norm_num) (by norm_num) (by norm_num)⟩

/-- C1: for every topology with `n ≥ 2` and positive `S`, `max_sd`,
`density_factor`, the final budget computed on source line 185 equals
`max(1, floor(nT_raw * density_factor))`, hence is at least 1; at
`n = 4, m = 3, S = 10, max_sd = 5, density_factor = 2` the estimator
returns 3 and the final budget is 6. -/
theorem final_budget_formula (n m S max_sd : ℕ) (df : ℚ)
    (hn : 2 ≤ n) (hS : 0 < S) (hsd : 0 < max_sd) (hdf : 0 < df) :
    finalBudget (calculateMaxNumberOfDemands n m S max_sd) df
      = max 1 ⌊((calculateMaxNumberOfDemands n m S max_sd : ℚ)) * df⌋ ∧
    1 ≤ finalBudget (calculateMaxNumberOfDemands n m S max_sd) df ∧
    calculateMaxNumberOfDemands 4 3 10 5 = 3 ∧
    finalBudget (calculateMaxNumberOfDemands 4 3 10 5) 2 = 6 := by
  have hraw : 0 ≤ calculateMaxNumberOfDemands n m S max_sd :=
    calculateMaxNumberOfDemands_nonneg n m S max_sd hn
  have hx : 0 ≤ ((calculateMaxNumberOfDemands n m S max_sd : ℚ)) * df := by
    apply mul_nonneg _ (le_of_lt hdf)
    exact_mod_cast hraw
  have hmain : finalBudget (calculateMaxNumberOfDemands n m S max_sd) df
      = max 1 ⌊((calculateMaxNumberOfDemands n m S max_sd : ℚ)) * df⌋ := by
    unfold finalBudget
    exact pyInt_max_one hx
  have hc1 : calculateMaxNumberOfDemands 4 3 10 5 = 3 := by
    simp only [calculateMaxNumberOfDemands, calculateGraphDensity, pyInt]
    norm_num
  have hc2 : finalBudget (calculateMaxNumberOfDemands 4 3 10 5) 2 = 6 := by
    rw [hc1]
    simp only [finalBudget, pyInt]
    norm_num [max_def]
  refine ⟨hmain, ?_, hc1, hc2⟩
  rw [hmain]
  exact le_max_left 1 _

/-- Witness for C1 at `n = 4, m = 3, S = 10, max_sd = 5, df = 2`. -/
theorem final_budget_formula_witness :
    2 ≤ 4 ∧ 0 < 10 ∧ 0 < 5 ∧ (0 : ℚ) < 2 ∧
    (finalBudget (calculateMaxNumberOfDemands 4 3 10 5) 2
      = max 1 ⌊((calculateMaxNumberOfDemands 4 3 10 5 : ℚ)) * 2⌋ ∧
     1 ≤ finalBudget (calculateMaxNumberOfDemands 4 3 10 5) 2 ∧
     calculateMaxNumberOfDemands 4 3 10 5 = 3 ∧
     finalBudget (calculateMaxNumberOfDemands 4 3 10 5) 2 = 6) :=
  ⟨by norm_num, by norm_num, by norm_num, by norm_num,
   final_budget_formula 4 3 10 5 2 (by norm_num) (by norm_num) (by norm_num)
     (by norm_num)⟩

/-! ### Parameter validation -/

lemma avaliableS_pos (a : Args) : ∀ s ∈ avaliableS a, 0 < s := by
  intro s hs
  unfold avaliableS at hs
  cases h : a.slots with
  | none =>
    rw [h] at hs
    exact (by decide : ∀ x ∈ default_slots, 0 < x) s hs
  | some l =>
    rw [h] at hs
    have h2 := (List.mem_filter.mp hs).2
    simpa using h2

lemma maxPercentages_valid (a : Args) :
    ∀ p ∈ maxPercentages a, 0 < p ∧ p ≤ 1 := by
  intro p hp
  unfold maxPercentages at hp
  cases h : a.percents with
  | none =>
    rw [h] at hp
    fin_cases hp <;> norm_num
  | some l =>
    rw [h] at hp
    have h2 := (List.mem_filter.mp hp).2
    simpa using h2

lemma spreadsOf_valid (a : Args) :
    ∀ sp ∈ spreadsOf a, 0 < sp ∧ sp ≤ 1 := by
  intro sp hsp
  unfold spreadsOf at hsp
  have h2 := (List.mem_filter.mp hsp).2
  simpa using h2

/-- C3 counterexample: an invocation with a non-positive slot count, a
percentage outside `(0, 1]` and a spread outside `(0, 1]` is not rejected:
parameter processing succeeds (no error, no nonzero exit) and generation
proceeds with the offending values silently discarded. -/
theorem invalid_params_not_rejected :
    checkAndFilter ⟨2, some [-5], some [3], [5]⟩
      = Except.ok ([], [], []) := by
  rfl

/-- C3 (amended): only a density factor outside `(0, 10)` is rejected
before generation with a reported error and nonzero exit; a non-positive
slot count, a percentage outside `(0, 1]` or a spread outside `(0, 1]`
is instead silently discarded from its parameter list, and generation
proceeds with the remaining values — which are then all in range. -/
theorem param_validation (a : Args) :
    (¬ (0 < a.density ∧ a.density < 10) →
      checkAndFilter a = Except.error densityErr) ∧
    ((0 < a.density ∧ a.density < 10) →
      checkAndFilter a
        = Except.ok (avaliableS a, maxPercentages a, spreadsOf a)) ∧
    (∀ s ∈ avaliableS a, 0 < s) ∧
    (∀ p ∈ maxPercentages a, 0 < p ∧ p ≤ 1) ∧
    (∀ sp ∈ spreadsOf a, 0 < sp ∧ sp ≤ 1) := by
  refine ⟨fun h => ?_, fun h => ?_, avaliableS_pos a,
    maxPercentages_valid a, spreadsOf_valid a⟩
  · unfold checkAndFilter
    rw [if_neg h]
  · unfold checkAndFilter
    rw [if_pos h]

/-- Witness for C3 (amended) at a concrete argument record. -/
theorem param_validation_witness :
    (¬ (0 < (2 : ℚ) ∧ (2 : ℚ) < 10) →
      checkAndFilter ⟨2, some [7, -5], some [1], [1]⟩
        = Except.error densityErr) ∧
    ((0 < (2 : ℚ) ∧ (2 : ℚ) < 10) →
      checkAndFilter ⟨2, some [7, -5], some [1], [1]⟩
        = Except.ok (avaliableS ⟨2, some [7, -5], some [1], [1]⟩,
            maxPercentages ⟨2, some [7, -5], some [1], [1]⟩,
            spreadsOf ⟨2, some [7, -5], some [1], [1]⟩)) ∧
    (∀ s ∈ avaliableS ⟨2, some [7, -5], some [1], [1]⟩, 0 < s) ∧
    (∀ p ∈ maxPercentages ⟨2, some [7, -5], some [1], [1]⟩,
      0 < p ∧ p ≤ 1) ∧
    (∀ sp ∈ spreadsOf ⟨2, some [7, -5], some [1], [1]⟩,
      0 < sp ∧ sp ≤ 1) :=
  param_validation ⟨2, some [7, -5], some [1], [1]⟩

/-! ### Sampling lemmas -/

lemma sampleList_length (r : Rng) (pop : List ℕ) (k : ℕ) :
    (Rng.sampleList r pop k).1.length = k := by
  induction k generalizing r pop with
  | zero => rfl
  | succ k ih => simp [Rng.sampleList, ih]

lemma sampleList_mem (r : Rng) (pop : List ℕ) (k : ℕ) (h : k ≤ pop.length) :
    ∀ x ∈ (Rng.sampleList r pop k).1, x ∈ pop := by
  induction k generalizing r pop with
  | zero =>
    intro x hx
    simp [Rng.sampleList] at hx
  | succ k ih =>
    intro x hx
    have hlen : 0 < pop.length := lt_of_lt_of_le (Nat.succ_pos k) h
    have hi : r.next.1 % pop.length < pop.length := Nat.mod_lt _ hlen
    simp only [Rng.sampleList] at hx
    rcases List.mem_cons.mp hx with h1 | h1
    · rw [h1, List.getD_eq_getElem _ _ hi]
      exact List.getElem_mem hi
    · have hk : k ≤ (pop.eraseIdx (r.next.1 % pop.length)).length := by
        rw [List.length_eraseIdx_of_lt hi]
        omega
      exact List.mem_of_mem_eraseIdx (ih r.next.2 _ hk x h1)

lemma getElem_not_mem_eraseIdx (pop : List ℕ) (i : ℕ) (hi : i < pop.length)
    (hnd : pop.Nodup) : pop[i] ∉ pop.eraseIdx i := by
  intro hmem
  rw [List.mem_eraseIdx_iff_getElem] at hmem
  obtain ⟨j, hj, hji, hval⟩ := hmem
  exact hji (hnd.getElem_inj_iff.mp hval)

lemma sampleList_nodup (r : Rng) (pop : List ℕ) (k : ℕ)
    (h : k ≤ pop.length) (hnd : pop.Nodup) :
    (Rng.sampleList r pop k).1.Nodup := by
  induction k generalizing r pop with
  | zero => simp [Rng.sampleList]
  | succ k ih =>
    have hlen : 0 < pop.length := lt_of_lt_of_le (Nat.succ_pos k) h
    have hi : r.next.1 % pop.length < pop.length := Nat.mod_lt _ hlen
    have hk : k ≤ (pop.eraseIdx (r.next.1 % pop.length)).length := by
      rw [List.length_eraseIdx_of_lt hi]
      omega
    simp only [Rng.sampleList]
    refine List.nodup_cons.mpr ⟨?_, ih r.next.2 _ hk (hnd.eraseIdx _)⟩
    intro hmem
    have hsub := sampleList_mem r.next.2 _ k hk _ hmem
    rw [List.getD_eq_getElem _ _ hi] at hsub
    exact getElem_not_mem_eraseIdx pop _ hi hnd hsub

/-! ### Per-iteration draw lemmas -/

lemma drawNDst_le_remaining (n : ℕ) (spInv : ℚ) (remaining : ℕ) (r : Rng) :
    (drawNDst n spInv remaining r).1 ≤ remaining :=
  le_trans (min_le_right _ _) (min_le_left _ _)

lemma drawNDst_le_pred_n (n : ℕ) (spInv : ℚ) (remaining : ℕ) (r : Rng) :
    (drawNDst n spInv remaining r).1 ≤ n - 1 :=
  min_le_left _ _

lemma uniform_lower {r : Rng} {a b : ℚ} (hab : a ≤ b) :
    a ≤ (r.uniform a b).1 := by
  unfold Rng.uniform
  have h1 : (0 : ℚ) ≤ (((r.next.1 % 1001 : ℕ) : ℚ) / 1000) := by positivity
  nlinarith

lemma drawNDst_pos (n : ℕ) (spInv : ℚ) (remaining : ℕ) (r : Rng)
    (hn : 2 ≤ n) (hr : 1 ≤ remaining) :
    1 ≤ (drawNDst n spInv remaining r).1 := by
  unfold drawNDst
  have hn1 : 1 ≤ n - 1 := by omega
  by_cases hc : spInv - 1 > 1/1000
  · simp only [if_pos hc]
    have hsp : (1 : ℚ) < spInv := by linarith
    have hab : (1/2 : ℚ) * spInv ≤ 2 * spInv := by nlinarith
    have hu : (0 : ℚ) < (r.uniform ((1/2) * spInv) (2 * spInv)).1 :=
      lt_of_lt_of_le (by nlinarith) (uniform_lower hab)
    have hceil : 1 ≤ (⌈(r.uniform ((1/2) * spInv) (2 * spInv)).1⌉).toNat := by
      have := Int.ceil_pos.mpr hu
      omega
    omega
  · simp only [if_neg hc]
    omega

lemma drawNDst_at_one (n : ℕ) (spInv : ℚ) (r : Rng) (hn : 2 ≤ n) :
    (drawNDst n spInv 1 r).1 = 1 := by
  have h1 := drawNDst_pos n spInv 1 r hn (le_refl 1)
  have h2 := drawNDst_le_remaining n spInv 1 r
  omega

lemma drawNDst_spread_wide (n : ℕ) (spInv : ℚ) (remaining : ℕ) (r : Rng)
    (hn : 2 ≤ n) (hr : 1 ≤ remaining) (hc : ¬ spInv - 1 > 1/1000) :
    (drawNDst n spInv remaining r).1 = 1 := by
  unfold drawNDst
  simp only [if_neg hc]
  omega

lemma drawSlots_pos (max_sd : ℕ) (r : Rng) : 1 ≤ (drawSlots max_sd r).1 :=
  le_max_left 1 _

lemma drawSlots_le (max_sd : ℕ) (r : Rng) (hsd : 1 ≤ max_sd) :
    (drawSlots max_sd r).1 ≤ max_sd := by
  unfold drawSlots Rng.randint
  have h1 : r.next.1 % (max_sd - max_sd / 2 + 1) ≤ max_sd - max_sd / 2 :=
    Nat.le_of_lt_succ (Nat.mod_lt _ (Nat.succ_pos _))
  have h2 : max_sd / 2 ≤ max_sd := Nat.div_le_self _ _
  simp only [max_le_iff]
  omega

/-! ### One-iteration lemmas -/

lemma length_filter_ne_range (n a : ℕ) (ha : a < n) :
    ((List.range n).filter (fun d => d ≠ a)).length = n - 1 := by
  induction n with
  | zero => omega
  | succ k ih =>
    rw [List.range_succ, List.filter_append]
    by_cases hak : a = k
    · subst hak
      have h1 : (List.range a).filter (fun d => d ≠ a) = List.range a := by
        apply List.filter_eq_self.mpr
        intro x hx
        have := List.mem_range.mp hx
        simp only [decide_eq_true_eq]
        omega
      have h2 : [a].filter (fun d => d ≠ a) = [] := by
        simp
      rw [h1, h2]
      simp
    · have hak2 : a < k := by omega
      have h2 : [k].filter (fun d => d ≠ a) = [k] := by
        simp only [List.filter_cons, List.filter_nil]
        rw [if_pos]
        simp only [decide_eq_true_eq]
        omega
      rw [h2]
      simp only [List.length_append, List.length_cons, List.length_nil]
      rw [ih hak2]
      omega

lemma pop_nodup (n a : ℕ) :
    ((List.range n).filter (fun d => d ≠ a)).Nodup :=
  (List.nodup_range n).filter _

lemma mem_pop (n a x : ℕ)
    (hx : x ∈ (List.range n).filter (fun d => d ≠ a)) : x < n ∧ x ≠ a := by
  have h1 := List.mem_filter.mp hx
  refine ⟨List.mem_range.mp h1.1, ?_⟩
  simpa using h1.2

/-- The destination count chosen (and subtracted from the budget) by one
iteration. -/
def stepNDst (n : ℕ) (spInv : ℚ) (remaining : ℕ) (r : Rng) : ℕ :=
  (drawNDst n spInv remaining (r.sampleOneNode n).2).1

lemma allocStep_dsts_length (n max_sd : ℕ) (spInv : ℚ) (remaining : ℕ)
    (r : Rng) :
    (allocStep n max_sd spInv remaining r).1.dsts.length
      = stepNDst n spInv remaining r := by
  simp only [allocStep, stepNDst]
  exact sampleList_length _ _ _

lemma allocStep_remaining (n max_sd : ℕ) (spInv : ℚ) (remaining : ℕ)
    (r : Rng) :
    (allocStep n max_sd spInv remaining r).2.1
      = remaining - stepNDst n spInv remaining r :=
  rfl

lemma stepNDst_pos (n : ℕ) (spInv : ℚ) (remaining : ℕ) (r : Rng)
    (hn : 2 ≤ n) (hr : 1 ≤ remaining) :
    1 ≤ stepNDst n spInv remaining r :=
  drawNDst_pos n spInv remaining _ hn hr

lemma stepNDst_le_remaining (n : ℕ) (spInv : ℚ) (remaining : ℕ) (r : Rng) :
    stepNDst n spInv remaining r ≤ remaining :=
  drawNDst_le_remaining n spInv remaining _

lemma stepNDst_le_pred_n (n : ℕ) (spInv : ℚ) (remaining : ℕ) (r : Rng) :
    stepNDst n spInv remaining r ≤ n - 1 :=
  drawNDst_le_pred_n n spInv remaining _

lemma allocStep_record_valid (n max_sd : ℕ) (spInv : ℚ) (remaining : ℕ)
    (r : Rng) (hn : 2 ≤ n) (hr : 1 ≤ remaining) :
    (allocStep n max_sd spInv remaining r).1.src < n ∧
    (allocStep n max_sd spInv remaining r).1.src
      ∉ (allocStep n max_sd spInv remaining r).1.dsts ∧
    (allocStep n max_sd spInv remaining r).1.dsts.Nodup ∧
    1 ≤ (allocStep n max_sd spInv remaining r).1.dsts.length ∧
    (allocStep n max_sd spInv remaining r).1.dsts.length ≤ n - 1 ∧
    1 ≤ (allocStep n max_sd spInv remaining r).1.slots ∧
    (1 ≤ max_sd → (allocStep n max_sd spInv remaining r).1.slots ≤ max_sd) := by
  have hsrc : (r.sampleOneNode n).1 < n := by
    unfold Rng.sampleOneNode
    exact Nat.mod_lt _ (by omega)
  have hpoplen :
      ((List.range n).filter (fun d => d ≠ (r.sampleOneNode n).1)).length
        = n - 1 :=
    length_filter_ne_range n _ hsrc
  have hklen : stepNDst n spInv remaining r
      ≤ ((List.range n).filter (fun d => d ≠ (r.sampleOneNode n).1)).length := by
    rw [hpoplen]
    exact stepNDst_le_pred_n n spInv remaining r
  have hdsts :
      (allocStep n max_sd spInv remaining r).1.dsts
        = (Rng.sampleList (drawNDst n spInv remaining (r.sampleOneNode n).2).2
            ((List.range n).filter (fun d => d ≠ (r.sampleOneNode n).1))
            (stepNDst n spInv remaining r)).1 :=
    rfl
  refine ⟨hsrc, ?_, ?_, ?_, ?_, le_max_left 1 _, fun hsd => drawSlots_le _ _ hsd⟩
  · intro hmem
    rw [hdsts] at hmem
    have h1 := sampleList_mem _ _ _ hklen _ hmem
    exact (mem_pop n _ _ h1).2 rfl
  · rw [hdsts]
    exact sampleList_nodup _ _ _ hklen (pop_nodup n _)
  · rw [allocStep_dsts_length]
    exact stepNDst_pos n spInv remaining r hn hr
  · rw [allocStep_dsts_length]
    exact stepNDst_le_pred_n n spInv remaining r

/-! ### Loop invariant -/

lemma allocLoop_step_eq (n max_sd : ℕ) (spInv : ℚ) (f rem : ℕ) (r : Rng) :
    allocLoop n max_sd spInv (f + 1) (rem + 1) r
      = ((allocStep n max_sd spInv (rem + 1) r).1 ::
          (allocLoop n max_sd spInv f
            (allocStep n max_sd spInv (rem + 1) r).2.1
            (allocStep n max_sd spInv (rem + 1) r).2.2).1,
         (allocLoop n max_sd spInv f
            (allocStep n max_sd spInv (rem + 1) r).2.1
            (allocStep n max_sd spInv (rem + 1) r).2.2).2) :=
  rfl

lemma allocLoop_zero_rem (n max_sd : ℕ) (spInv : ℚ) (fuel : ℕ) (r : Rng) :
    allocLoop n max_sd spInv fuel 0 r = ([], 0, r) := by
  cases fuel <;> rfl

lemma allocLoop_invariant (n max_sd : ℕ) (spInv : ℚ) (hn : 2 ≤ n) :
    ∀ fuel remaining r, remaining ≤ fuel →
      (allocLoop n max_sd spInv fuel remaining r).2.1 = 0 ∧
      ((allocLoop n max_sd spInv fuel remaining r).1.map
        (fun d => d.dsts.length)).sum = remaining ∧
      (allocLoop n max_sd spInv fuel remaining r).1.length ≤ remaining ∧
      (1 ≤ remaining →
        1 ≤ (allocLoop n max_sd spInv fuel remaining r).1.length) ∧
      ∀ d ∈ (allocLoop n max_sd spInv fuel remaining r).1,
        d.src < n ∧ d.src ∉ d.dsts ∧ d.dsts.Nodup ∧
        1 ≤ d.dsts.length ∧ d.dsts.length ≤ n - 1 ∧
        1 ≤ d.slots ∧ (1 ≤ max_sd → d.slots ≤ max_sd) := by
  intro fuel
  induction fuel with
  | zero =>
    intro remaining r h
    have h0 : remaining = 0 := Nat.le_zero.mp h
    subst h0
    rw [allocLoop_zero_rem]
    simp
  | succ f ih =>
    intro remaining r h
    cases remaining with
    | zero =>
      rw [allocLoop_zero_rem]
      simp
    | succ rem =>
      rw [allocLoop_step_eq]
      have hnd1 : 1 ≤ stepNDst n spInv (rem + 1) r :=
        stepNDst_pos n spInv (rem + 1) r hn (by omega)
      have hndle : stepNDst n spInv (rem + 1) r ≤ rem + 1 :=
        stepNDst_le_remaining n spInv (rem + 1) r
      have hsrem : (allocStep n max_sd spInv (rem + 1) r).2.1
          = rem + 1 - stepNDst n spInv (rem + 1) r :=
        allocStep_remaining n max_sd spInv (rem + 1) r
      have hle : (allocStep n max_sd spInv (rem + 1) r).2.1 ≤ f := by
        rw [hsrem]
        omega
      obtain ⟨ih1, ih2, ih3, _, ih5⟩ :=
        ih (allocStep n max_sd spInv (rem + 1) r).2.1
          (allocStep n max_sd spInv (rem + 1) r).2.2 hle
      have hhead := allocStep_record_valid n max_sd spInv (rem + 1) r hn
        (by omega)
      refine ⟨ih1, ?_, ?_, ?_, ?_⟩
      · simp only [List.map_cons, List.sum_cons, allocStep_dsts_length, ih2]
        omega
      · simp only [List.length_cons]
        omega
      · intro _
        simp only [List.length_cons]
        omega
      · intro d hd
        rcases List.mem_cons.mp hd with h1 | h1
        · rw [h1]
          exact hhead
        · exact ih5 d h1

lemma allocStep_slots_bounds (n max_sd : ℕ) (spInv : ℚ) (remaining : ℕ)
    (r : Rng) (hsd : 1 ≤ max_sd) :
    1 ≤ (allocStep n max_sd spInv remaining r).1.slots ∧
    (allocStep n max_sd spInv remaining r).1.slots ≤ max_sd :=
  ⟨le_max_left 1 _, drawSlots_le max_sd _ hsd⟩

lemma allocLoop_slots_valid (n max_sd : ℕ) (spInv : ℚ) (hsd : 1 ≤ max_sd) :
    ∀ fuel remaining r,
      ∀ d ∈ (allocLoop n max_sd spInv fuel remaining r).1,
        1 ≤ d.slots ∧ d.slots ≤ max_sd := by
  intro fuel
  induction fuel with
  | zero =>
    intro remaining r d hd
    cases remaining <;> simp [allocLoop] at hd
  | succ f ih =>
    intro remaining r d hd
    cases remaining with
    | zero => simp [allocLoop] at hd
    | succ rem =>
      rw [allocLoop_step_eq] at hd
      rcases List.mem_cons.mp hd with h1 | h1
      · rw [h1]
        exact allocStep_slots_bounds n max_sd spInv (rem + 1) r hsd
      · exact ih _ _ d h1

lemma allocStep_dsts_length_spread (n max_sd : ℕ) (spInv : ℚ)
    (remaining : ℕ) (r : Rng) (hn : 2 ≤ n) (hr : 1 ≤ remaining)
    (hc : ¬ spInv - 1 > 1/1000) :
    (allocStep n max_sd spInv remaining r).1.dsts.length = 1 := by
  rw [allocStep_dsts_length]
  exact drawNDst_spread_wide n spInv remaining _ hn hr hc

lemma allocLoop_spread_wide (n max_sd : ℕ) (spInv : ℚ) (hn : 2 ≤ n)
    (hc : ¬ spInv - 1 > 1/1000) :
    ∀ fuel remaining r,
      ∀ d ∈ (allocLoop n max_sd spInv fuel remaining r).1,
        d.dsts.length = 1 := by
  intro fuel
  induction fuel with
  | zero =>
    intro remaining r d hd
    cases remaining <;> simp [allocLoop] at hd
  | succ f ih =>
    intro remaining r d hd
    cases remaining with
    | zero => simp [allocLoop] at hd
    | succ rem =>
      rw [allocLoop_step_eq] at hd
      rcases List.mem_cons.mp hd with h1 | h1
      · rw [h1]
        exact allocStep_dsts_length_spread n max_sd spInv (rem + 1) r hn
          (by omega) hc
      · exact ih _ _ d h1

/-! ### Claim theorems: allocator -/

/-- C4: for `n ≥ 2` and `nT ≥ 1` the loop terminates with the budget
exhausted, runs at most `nT` iterations, every iteration subtracts a
destination count of at least 1 (and at most the remaining budget), and
an iteration that starts with `remaining = 1` computes `nDst = 1`
whatever the candidate draw was. -/
theorem alloc_terminates (n max_sd : ℕ) (sp : ℚ) (nT : ℕ) (r : Rng)
    (hn : 2 ≤ n) (hT : 1 ≤ nT) :
    (allocate n max_sd sp nT r).2.1 = 0 ∧
    (allocate n max_sd sp nT r).1.length ≤ nT ∧
    (∀ remaining r', 1 ≤ remaining →
      1 ≤ (drawNDst n (spInvOf sp) remaining r').1 ∧
      (drawNDst n (spInvOf sp) remaining r').1 ≤ remaining) ∧
    (∀ r', (drawNDst n (spInvOf sp) 1 r').1 = 1) := by
  unfold allocate
  obtain ⟨h1, _, h3, _, _⟩ :=
    allocLoop_invariant n max_sd (spInvOf sp) hn nT nT r (le_refl nT)
  refine ⟨h1, h3, fun remaining r' hr => ?_, fun r' => ?_⟩
  · exact ⟨drawNDst_pos _ _ _ _ hn hr, drawNDst_le_remaining _ _ _ _⟩
  · exact drawNDst_at_one _ _ _ hn

/-- Witness for C4 at `n = 2, max_sd = 1, sp = 1, nT = 3`. -/
theorem alloc_terminates_witness :
    2 ≤ 2 ∧ 1 ≤ 3 ∧
    ((allocate 2 1 1 3 ⟨fun _ => 0, 0⟩).2.1 = 0 ∧
     (allocate 2 1 1 3 ⟨fun _ => 0, 0⟩).1.length ≤ 3 ∧
     (∀ remaining r', 1 ≤ remaining →
       1 ≤ (drawNDst 2 (spInvOf 1) remaining r').1 ∧
       (drawNDst 2 (spInvOf 1) remaining r').1 ≤ remaining) ∧
     (∀ r', (drawNDst 2 (spInvOf 1) 1 r').1 = 1)) :=
  ⟨by norm_num, by norm_num,
   alloc_terminates 2 1 1 3 ⟨fun _ => 0, 0⟩ (by norm_num) (by norm_num)⟩

/-- C5: every emitted record has a source outside its destination list,
pairwise-distinct destinations, and between 1 and `n - 1` destinations. -/
theorem records_valid (n max_sd : ℕ) (sp : ℚ) (nT : ℕ) (r : Rng)
    (hn : 2 ≤ n) :
    ∀ d ∈ (allocate n max_sd sp nT r).1,
      d.src ∉ d.dsts ∧ d.dsts.Nodup ∧
      1 ≤ d.dsts.length ∧ d.dsts.length ≤ n - 1 := by
  unfold allocate
  intro d hd
  obtain ⟨_, _, _, _, h5⟩ :=
    allocLoop_invariant n max_sd (spInvOf sp) hn nT nT r (le_refl nT)
  obtain ⟨_, ha, hb, hc, hd2, _, _⟩ := h5 d hd
  exact ⟨ha, hb, hc, hd2⟩

/-- Witness for C5 at `n = 3, max_sd = 2, sp = 1, nT = 4`. -/
theorem records_valid_witness :
    2 ≤ 3 ∧
    (∀ d ∈ (allocate 3 2 1 4 ⟨fun _ => 0, 0⟩).1,
      d.src ∉ d.dsts ∧ d.dsts.Nodup ∧
      1 ≤ d.dsts.length ∧ d.dsts.length ≤ 3 - 1) :=
  ⟨by norm_num, records_valid 3 2 1 4 ⟨fun _ => 0, 0⟩ (by norm_num)⟩

/-- C6: the slot requirement of each record is computed as
`max(1, randint(floor(max_sd/2), max_sd))`, so for a positive `max_sd`
every emitted record satisfies `1 ≤ slots ≤ max_sd`. -/
theorem slots_formula (n max_sd : ℕ) (sp : ℚ) (nT : ℕ) (r : Rng)
    (hsd : 1 ≤ max_sd) :
    (∀ r' : Rng,
      (drawSlots max_sd r').1 = max 1 (r'.randint (max_sd / 2) max_sd).1 ∧
      1 ≤ (drawSlots max_sd r').1 ∧ (drawSlots max_sd r').1 ≤ max_sd) ∧
    ∀ d ∈ (allocate n max_sd sp nT r).1, 1 ≤ d.slots ∧ d.slots ≤ max_sd := by
  unfold allocate
  refine ⟨fun r' => ⟨rfl, drawSlots_pos max_sd r', drawSlots_le max_sd r' hsd⟩,
    fun d hd => allocLoop_slots_valid n max_sd (spInvOf sp) hsd nT nT r d hd⟩

/-- Witness for C6 at `n = 2, max_sd = 5, sp = 1, nT = 2`. -/
theorem slots_formula_witness :
    1 ≤ 5 ∧
    ((∀ r' : Rng,
       (drawSlots 5 r').1 = max 1 (r'.randint (5 / 2) 5).1 ∧
       1 ≤ (drawSlots 5 r').1 ∧ (drawSlots 5 r').1 ≤ 5) ∧
     ∀ d ∈ (allocate 2 5 1 2 ⟨fun _ => 0, 0⟩).1,
       1 ≤ d.slots ∧ d.slots ≤ 5) :=
  ⟨by norm_num, slots_formula 2 5 1 2 ⟨fun _ => 0, 0⟩ (by norm_num)⟩

/-- C7: with `spread = 1.0` the reciprocal is exactly 1, the
multi-destination branch is never taken, and every emitted record has
exactly one destination. -/
theorem spread_one_single_destination (n max_sd nT : ℕ) (r : Rng)
    (hn : 2 ≤ n) (hT : 1 ≤ nT) :
    ∀ d ∈ (allocate n max_sd 1 nT r).1, d.dsts.length = 1 := by
  unfold allocate
  have hc : ¬ ((spInvOf (1 : ℚ)) - 1 > 1/1000) := by
    norm_num [spInvOf]
  exact allocLoop_spread_wide n max_sd (spInvOf 1) hn hc nT nT r

/-- Witness for C7 at `n = 4, max_sd = 3, nT = 5`. -/
theorem spread_one_single_destination_witness :
    2 ≤ 4 ∧ 1 ≤ 5 ∧
    (∀ d ∈ (allocate 4 3 1 5 ⟨fun _ => 0, 0⟩).1, d.dsts.length = 1) :=
  ⟨by norm_num, by norm_num,
   spread_one_single_destination 4 3 5 ⟨fun _ => 0, 0⟩ (by norm_num)
     (by norm_num)⟩

/-- C8: the total number of destinations over all emitted records never
exceeds `nT`, and the shortfall `nT - total` is smaller than the largest
per-record destination count (in fact the total equals `nT` exactly, so
the shortfall is 0 and the largest destination count is at least 1). -/
theorem budget_within_one_iteration (n max_sd : ℕ) (sp : ℚ) (nT : ℕ)
    (r : Rng) (hn : 2 ≤ n) (hT : 1 ≤ nT) :
    ((allocate n max_sd sp nT r).1.map (fun d => d.dsts.length)).sum ≤ nT ∧
    nT - ((allocate n max_sd sp nT r).1.map (fun d => d.dsts.length)).sum
      < ((allocate n max_sd sp nT r).1.map
          (fun d => d.dsts.length)).foldr max 0 := by
  unfold allocate
  obtain ⟨_, h2, _, h4, h5⟩ :=
    allocLoop_invariant n max_sd (spInvOf sp) hn nT nT r (le_refl nT)
  refine ⟨le_of_eq h2, ?_⟩
  have hne : (allocLoop n max_sd (spInvOf sp) nT nT r).1 ≠ [] := by
    intro hnil
    have h6 := h4 hT
    rw [hnil] at h6
    simp at h6
  obtain ⟨d, rest, hl⟩ := List.exists_cons_of_ne_nil hne
  have hd4 : 1 ≤ d.dsts.length := by
    have hmem : d ∈ (allocLoop n max_sd (spInvOf sp) nT nT r).1 := by
      rw [hl]
      exact List.mem_cons_self _ _
    exact (h5 d hmem).2.2.2.1
  rw [h2, Nat.sub_self, hl]
  simp only [List.map_cons, List.foldr_cons]
  omega

/-- Witness for C8 at `n = 2, max_sd = 1, sp = 1, nT = 2`. -/
theorem budget_within_one_iteration_witness :
    2 ≤ 2 ∧ 1 ≤ 2 ∧
    (((allocate 2 1 1 2 ⟨fun _ => 0, 0⟩).1.map
        (fun d => d.dsts.length)).sum ≤ 2 ∧
     2 - ((allocate 2 1 1 2 ⟨fun _ => 0, 0⟩).1.map
        (fun d => d.dsts.length)).sum
       < ((allocate 2 1 1 2 ⟨fun _ => 0, 0⟩).1.map
          (fun d => d.dsts.length)).foldr max 0) :=
  ⟨by norm_num, by norm_num,
   budget_within_one_iteration 2 1 1 2 ⟨fun _ => 0, 0⟩ (by norm_num)
     (by norm_num)⟩

/-- C10: the allocator consumes the budget exactly: the per-iteration
decrement never exceeds the remaining budget (so the Python integer never
goes negative), the loop exits with `remaining = 0`, the destination
counts sum to exactly `nT`, and the record count is between 1 and `nT`. -/
theorem budget_consumed_exactly (n max_sd : ℕ) (sp : ℚ) (nT : ℕ) (r : Rng)
    (hn : 2 ≤ n) (hT : 1 ≤ nT) :
    (allocate n max_sd sp nT r).2.1 = 0 ∧
    (∀ remaining r', (drawNDst n (spInvOf sp) remaining r').1 ≤ remaining) ∧
    ((allocate n max_sd sp nT r).1.map (fun d => d.dsts.length)).sum = nT ∧
    1 ≤ (allocate n max_sd sp nT r).1.length ∧
    (allocate n max_sd sp nT r).1.length ≤ nT := by
  unfold allocate
  obtain ⟨h1, h2, h3, h4, _⟩ :=
    allocLoop_invariant n max_sd (spInvOf sp) hn nT nT r (le_refl nT)
  exact ⟨h1, fun remaining r' => drawNDst_le_remaining _ _ _ _, h2, h4 hT, h3⟩

/-- Witness for C10 at `n = 3, max_sd = 2, sp = 1, nT = 3`. -/
theorem budget_consumed_exactly_witness :
    2 ≤ 3 ∧ 1 ≤ 3 ∧
    ((allocate 3 2 1 3 ⟨fun _ => 0, 0⟩).2.1 = 0 ∧
     (∀ remaining r', (drawNDst 3 (spInvOf 1) remaining r').1 ≤ remaining) ∧
     ((allocate 3 2 1 3 ⟨fun _ => 0, 0⟩).1.map
        (fun d => d.dsts.length)).sum = 3 ∧
     1 ≤ (allocate 3 2 1 3 ⟨fun _ => 0, 0⟩).1.length ∧
     (allocate 3 2 1 3 ⟨fun _ => 0, 0⟩).1.length ≤ 3) :=
  ⟨by norm_num, by norm_num,
   budget_consumed_exactly 3 2 1 3 ⟨fun _ => 0, 0⟩ (by norm_num)
     (by norm_num)⟩

/-- C9: the generation core is a pure function of the seed and the input
parameter sequence: two runs with the same seed, the same topologies in
the same order and the same argument values produce identical output file
contents, line for line. -/
theorem generation_deterministic (seed seed' : ℕ)
    (tops tops' : List (ℕ × ℕ)) (a a' : Args)
    (hs : seed = seed') (ht : tops = tops') (ha : a = a') :
    runSweep seed tops a = runSweep seed' tops' a' := by
  subst hs
  subst ht
  subst ha
  rfl

/-- Witness for C9 at a concrete seed, topology list and argument set. -/
theorem generation_deterministic_witness :
    1988 = 1988 ∧ [((4 : ℕ), (3 : ℕ))] = [(4, 3)] ∧
    (Args.mk 2 (some [10]) (some [1]) [1] = Args.mk 2 (some [10]) (some [1]) [1]) ∧
    runSweep 1988 [(4, 3)] (Args.mk 2 (some [10]) (some [1]) [1])
      = runSweep 1988 [(4, 3)] (Args.mk 2 (some [10]) (some [1]) [1]) :=
  ⟨rfl, rfl, rfl,
   generation_deterministic 1988 1988 [(4, 3)] [(4, 3)]
     (Args.mk 2 (some [10]) (some [1]) [1])
     (Args.mk 2 (some [10]) (some [1]) [1]) rfl rfl rfl⟩

end MRSA
